import Mathlib

/-!
Shallow embedding of `ISO_Smallspot_Safety_Calculator.py`.

The parser (`parse_value`) and the spectral tables are modelled exactly,
over exact rationals (every Python float literal in the source is a decimal
literal, represented here by the same rational).  The hazard evaluator is
modelled over the reals, with Python's `float('inf')` sentinel represented
by `⊤ : EReal`, `None` by `Option.none`, and the two runtime errors the
function can raise (`KeyError` on a failed dict lookup, `ZeroDivisionError`
on an unguarded division) by an `Except` error value.
-/

namespace ISO15004

/-! ### ValueParser (`parse_value`, source lines 5–28) -/

/-- Python string `strip`: drop whitespace from both ends. -/
def pyStrip (cs : List Char) : List Char :=
  ((cs.dropWhile Char.isWhitespace).reverse.dropWhile Char.isWhitespace).reverse

/-- Per-character effect of `.lower().replace("µ", "u")` in the source:
ASCII lowering, with the micro sign (U+00B5, unchanged by `lower`)
replaced by `u`. -/
def normChar (c : Char) : Char :=
  if c.toLower = 'µ' then 'u' else c.toLower

/-- Characters matched by the regex class `[0-9.]`. -/
def isNumChar (c : Char) : Bool := c.isDigit || c = '.'

/-- Letters of the regex class `[tgmkmunpf]` (the duplicated `m` collapses). -/
def pfxChars : List Char := ['t', 'g', 'm', 'k', 'u', 'n', 'p', 'f']

/-- Value of a run of decimal digits. -/
def digitsToNat (cs : List Char) : Nat :=
  cs.foldl (fun a c => a * 10 + (c.toNat - '0'.toNat)) 0

/-- Python `float` applied to a token drawn from `[0-9.]+`: defined exactly
when the token has at least one digit and at most one dot (e.g. `float(".")`
and `float("1.2.3")` raise). -/
def floatToken (cs : List Char) : Option ℚ :=
  if cs.any Char.isDigit = true ∧ cs.count '.' ≤ 1 then
    let ip := cs.takeWhile (· ≠ '.')
    let fp := (cs.dropWhile (· ≠ '.')).drop 1
    some ((digitsToNat ip : ℚ) + (digitsToNat fp : ℚ) / 10 ^ fp.length)
  else none

/-- The scale dictionary of the source (note: lower-case only — the input is
lowercased first, so `m` means milli and mega is unreachable).  `none` is the
empty prefix, scale `1.0`; a letter outside the dictionary is unreachable
(the regex class guarantees membership). -/
def scaleOf (c? : Option Char) : ℚ :=
  match c? with
  | none => 1
  | some c =>
    if c = 't' then 1e12
    else if c = 'g' then 1e9
    else if c = 'm' then 1e-3
    else if c = 'k' then 1e3
    else if c = 'u' then 1e-6
    else if c = 'n' then 1e-9
    else if c = 'p' then 1e-12
    else if c = 'f' then 1e-15
    else 1

/-- `parse_value` (source lines 5–28).  `none` models the `ValueError`
raised either explicitly (regex match failure) or by `float`.  The regex
`([0-9.]+)\s*([tgmkmunpf]?)` is matched from the start of the string only,
so trailing characters are ignored. -/
def parse_value (s : String) : Option ℚ :=
  let cs := (pyStrip s.data).map normChar
  let tok := cs.takeWhile isNumChar
  match floatToken tok with
  | none => none
  | some q =>
    let rest := (cs.dropWhile isNumChar).dropWhile Char.isWhitespace
    let pfx : Option Char :=
      match rest with
      | c :: _ => if c ∈ pfxChars then some c else none
      | [] => none
    some (q * scaleOf pfx)

/-- Whole-string shape `<number><optional single-letter prefix>` as the spec
words it (the spec's claimed rejection condition for `parse_value`); stated
for comparison with what the code actually accepts. -/
def matchesShapeSpec (s : String) : Bool :=
  let cs := (pyStrip s.data).map normChar
  let tok := cs.takeWhile isNumChar
  let rest := cs.dropWhile isNumChar
  (floatToken tok).isSome && (rest = [] || (rest.length = 1 && rest.all (· ∈ pfxChars)))

/-! ### SpectralTable (source lines 31–44) -/

/-- `R_TABLE` (source lines 31–35), in insertion order. -/
def R_TABLE : List (ℕ × ℚ) :=
  [(400, 2.0), (410, 2.0), (420, 2.0), (430, 2.0), (440, 2.0),
   (450, 2.0), (455, 2.0), (460, 2.0), (470, 2.0), (480, 2.0),
   (490, 2.0), (500, 2.0)]

/-- `B_TABLE` (source lines 36–40), in insertion order. -/
def B_TABLE : List (ℕ × ℚ) :=
  [(400, 0.060), (410, 0.180), (420, 0.900), (430, 0.980), (440, 0.970),
   (450, 0.940), (455, 0.900), (460, 0.800), (470, 0.630), (480, 0.550),
   (490, 0.420), (500, 0.320)]

/-- Python dict indexing `table[k]`, `none` modelling `KeyError`. -/
def lookup (t : List (ℕ × ℚ)) (k : ℕ) : Option ℚ :=
  (t.find? (fun p => p.1 == k)).map Prod.snd

/-- `table.keys()` in insertion order. -/
def tableKeys (t : List (ℕ × ℚ)) : List ℕ := t.map Prod.fst

/-- Python `min(l, key=f)` over a non-empty sequence `a :: l`: the first
element attaining the minimal key (strict-less update). -/
noncomputable def minBy {α : Type} (f : α → ℝ) : α → List α → α
  | a, [] => a
  | a, x :: xs => minBy f (if f x < f a then x else a) xs

/-- `nearest_nm` (source lines 42–44).  Python's `min` errors on an empty
sequence; the default key set is never empty, and the `[] => 0` branch is
unreachable for it. -/
noncomputable def nearest_nm (nm : ℝ) (ks : List ℕ := tableKeys R_TABLE) : ℕ :=
  match ks with
  | [] => 0
  | k :: rest => minBy (fun j => |(j : ℝ) - nm|) k rest

/-! ### HazardEvaluator (`iso15004_smallspot`, source lines 46–135) -/

/-- The two runtime errors reachable in `iso15004_smallspot`: a failed
dict lookup and the unguarded division `power_pupil_W / rep_rate_Hz`. -/
inductive PyError where
  | keyError : PyError
  | zeroDivisionError : PyError
deriving DecidableEq

/-- The structured evaluation result: one field per quantity the function
computes (and prints).  `Option` models quantities left as `None` when
`dwell_time_s ≤ 6.2e-4`; `⊤ : EReal` models the `float('inf')` sentinel. -/
structure HazardResult where
  nm : ℕ
  R : ℝ
  B : ℝ
  E_pulse : ℝ
  E_pulse_eff : ℝ
  single_margin : EReal
  E_eff : ℝ
  thermal_limit : Option ℝ
  thermal_margin : Option EReal
  E_photo : ℝ
  H_photo : Option ℝ
  photo_margin : Option EReal
  governing : String
  t_safe_photo : EReal

/-- The R(λ) substitution rules (source lines 54–58), applied in order. -/
noncomputable def substituteR (pulse_duration_s dwell_time_s R : ℝ) : ℝ :=
  let R1 := if pulse_duration_s < 1e-11 ∧ R < 1.0 then 1.0 else R
  if dwell_time_s > 10.0 ∧ R1 > 1.0 then 1.0 else R1

/-- Fixed small-spot aperture area (source lines 60–63):
`A_cm2 = π · ((0.03/2)/10)²`. -/
noncomputable def A_cm2 : ℝ := Real.pi * ((0.03 / 2) / 10.0) ^ 2

/-- The guarded-division pattern `limit / x if x > 0 else float('inf')`
used for every margin and for the safe stopped-beam time. -/
noncomputable def marginOf (limit x : ℝ) : EReal :=
  if x > 0 then ((limit / x : ℝ) : EReal) else ⊤

/-- Governing-hazard selection (source lines 88–99).  Python truthiness of
a float is `≠ 0`; of `None`, false — reproduced exactly. -/
noncomputable def governingOf (dwell_time_s : ℝ)
    (thermal_margin photo_margin : Option EReal) : String :=
  if dwell_time_s ≤ 6.2e-4 then "Thermal only (photochemical not applicable)"
  else
    match thermal_margin, photo_margin with
    | some tm, some pm =>
      if tm ≠ 0 ∧ pm ≠ 0 then (if pm < tm then "Photochemical" else "Thermal")
      else if tm ≠ 0 then "Thermal"
      else if pm ≠ 0 then "Photochemical"
      else "Indeterminate"
    | some tm, none => if tm ≠ 0 then "Thermal" else "Indeterminate"
    | none, some pm => if pm ≠ 0 then "Photochemical" else "Indeterminate"
    | none, none => "Indeterminate"

/-- `iso15004_smallspot` (source lines 46–135): the complete numeric
computation of the function, in source order.  The `print` calls of the
source only render these quantities; they are not modelled. -/
noncomputable def iso15004_smallspot (wavelength_nm power_pupil_W dwell_time_s : ℝ)
    (rep_rate_Hz : ℝ := 59e6) (pulse_duration_s : ℝ := 6e-12) :
    Except PyError HazardResult :=
  let nm := nearest_nm wavelength_nm
  match lookup R_TABLE nm, lookup B_TABLE nm with
  | some R0, some B0 =>
    let R := substituteR pulse_duration_s dwell_time_s (R0 : ℝ)
    let B : ℝ := (B0 : ℝ)
    if rep_rate_Hz = 0 then .error .zeroDivisionError
    else
      let E_pulse := power_pupil_W / rep_rate_Hz
      let E_pulse_eff := R * E_pulse
      let single_margin := marginOf 40e-9 E_pulse_eff
      let E_eff := R * power_pupil_W * dwell_time_s
      let thermal_limit_val := 1.7 * dwell_time_s ^ (0.75 : ℝ) * 1e-3
      let thermal_limit := if dwell_time_s > 6.2e-4 then some thermal_limit_val else none
      let thermal_margin :=
        if dwell_time_s > 6.2e-4 then some (marginOf thermal_limit_val E_eff) else none
      let photo_limit : ℝ := 2.2
      let E_photo := power_pupil_W * B / A_cm2
      let H_photo_val := E_photo * dwell_time_s
      let H_photo := if dwell_time_s > 6.2e-4 then some H_photo_val else none
      let photo_margin :=
        if dwell_time_s > 6.2e-4 then some (marginOf photo_limit H_photo_val) else none
      let governing := governingOf dwell_time_s thermal_margin photo_margin
      let t_safe_photo := marginOf photo_limit E_photo
      .ok
        { nm := nm, R := R, B := B, E_pulse := E_pulse, E_pulse_eff := E_pulse_eff,
          single_margin := single_margin, E_eff := E_eff, thermal_limit := thermal_limit,
          thermal_margin := thermal_margin, E_photo := E_photo, H_photo := H_photo,
          photo_margin := photo_margin, governing := governing,
          t_safe_photo := t_safe_photo }
  | _, _ => .error .keyError

/-! ### Evaluation lemmas for the parser -/

/-- Computation rule for `parse_value` on a successfully parsed string, with
the character-level pipeline stages supplied as (decidable) hypotheses. -/
theorem parse_value_eval (s : String) (cs tok ip fp : List Char) (pfx : Option Char)
    (hcs : (pyStrip s.data).map normChar = cs)
    (htok : cs.takeWhile isNumChar = tok)
    (hdigit : tok.any Char.isDigit = true) (hdot : tok.count '.' ≤ 1)
    (hip : tok.takeWhile (· ≠ '.') = ip) (hfp : (tok.dropWhile (· ≠ '.')).drop 1 = fp)
    (hpfx : (match (cs.dropWhile isNumChar).dropWhile Char.isWhitespace with
             | c :: _ => if c ∈ pfxChars then some c else none
             | [] => none) = pfx) :
    parse_value s =
      some (((digitsToNat ip : ℚ) + (digitsToNat fp : ℚ) / 10 ^ fp.length) * scaleOf pfx) := by
  simp only [parse_value, floatToken, hcs, htok, hpfx, hdigit, hdot, hip, hfp,
    and_self, if_true, true_and, eq_self_iff_true]

/-! ### `min(..., key=f)` : first-minimum lemmas -/

theorem minBy_mem {α : Type} (f : α → ℝ) (l : List α) : ∀ a : α, minBy f a l ∈ a :: l := by
  induction l with
  | nil => intro a; simp [minBy]
  | cons x xs ih =>
    intro a
    simp only [minBy]
    rcases List.mem_cons.mp (ih (if f x < f a then x else a)) with h | h
    · rw [h]
      split
      · exact List.mem_cons_of_mem _ (List.mem_cons_self _ _)
      · exact List.mem_cons_self _ _
    · exact List.mem_cons_of_mem _ (List.mem_cons_of_mem _ h)

theorem minBy_le {α : Type} (f : α → ℝ) (l : List α) :
    ∀ a : α, ∀ b ∈ a :: l, f (minBy f a l) ≤ f b := by
  induction l with
  | nil =>
    intro a b hb
    rcases List.mem_cons.mp hb with rfl | h
    · simp [minBy]
    · simp at h
  | cons x xs ih =>
    intro a b hb
    simp only [minBy]
    have hacc : f (minBy f (if f x < f a then x else a) xs) ≤ f (if f x < f a then x else a) :=
      ih _ _ (List.mem_cons_self _ _)
    have haccA : f (if f x < f a then x else a) ≤ f a := by
      split
      · next h => exact le_of_lt h
      · exact le_refl _
    have haccX : f (if f x < f a then x else a) ≤ f x := by
      split
      · exact le_refl _
      · next h => exact le_of_not_lt h
    rcases List.mem_cons.mp hb with rfl | hb1
    · exact le_trans hacc haccA
    · rcases List.mem_cons.mp hb1 with rfl | hb2
      · exact le_trans hacc haccX
      · exact ih _ _ (List.mem_cons_of_mem _ hb2)

theorem minBy_acc {α : Type} (f : α → ℝ) (l : List α) :
    ∀ a : α, minBy f a l = a ∨ (minBy f a l ∈ l ∧ f (minBy f a l) < f a) := by
  induction l with
  | nil => intro a; left; rfl
  | cons x xs ih =>
    intro a
    simp only [minBy]
    by_cases h : f x < f a
    · rw [if_pos h]
      rcases ih x with h1 | ⟨h1, h2⟩
      · right
        refine ⟨?_, ?_⟩
        · rw [h1]; exact List.mem_cons_self _ _
        · rw [h1]; exact h
      · right; exact ⟨List.mem_cons_of_mem _ h1, lt_trans h2 h⟩
    · rw [if_neg h]
      rcases ih a with h1 | ⟨h1, h2⟩
      · left; exact h1
      · right; exact ⟨List.mem_cons_of_mem _ h1, h2⟩

/-- On an ascending list, the first minimum is the least among equal minima. -/
theorem minBy_first_tie {α : Type} [LinearOrder α] (f : α → ℝ) (l : List α) :
    ∀ a : α, (a :: l).Pairwise (· ≤ ·) →
      ∀ b ∈ a :: l, f b = f (minBy f a l) → minBy f a l ≤ b := by
  induction l with
  | nil =>
    intro a _ b hb _
    rcases List.mem_cons.mp hb with rfl | h
    · exact le_refl _
    · simp at h
  | cons x xs ih =>
    intro a hp b hb hfb
    simp only [minBy] at hfb ⊢
    have hp1 := List.pairwise_cons.mp hp
    by_cases h : f x < f a
    · rw [if_pos h] at hfb ⊢
      rcases List.mem_cons.mp hb with rfl | hb1
      · exfalso
        have hle : f (minBy f x xs) ≤ f x := minBy_le f xs x x (List.mem_cons_self _ _)
        have h2 : f (minBy f x xs) < f b := lt_of_le_of_lt hle h
        rw [hfb] at h2
        exact lt_irrefl _ h2
      · exact ih x hp1.2 b hb1 hfb
    · rw [if_neg h] at hfb ⊢
      have hax : a ≤ x := hp1.1 x (List.mem_cons_self _ _)
      have hp2 : (a :: xs).Pairwise (· ≤ ·) := by
        refine List.pairwise_cons.mpr ⟨?_, (List.pairwise_cons.mp hp1.2).2⟩
        intro y hy
        exact hp1.1 y (List.mem_cons_of_mem _ hy)
      rcases List.mem_cons.mp hb with rfl | hb1
      · exact ih _ hp2 b (List.mem_cons_self _ _) hfb
      · rcases List.mem_cons.mp hb1 with rfl | hb2
        · rcases minBy_acc f xs a with h1 | ⟨_, h2⟩
          · rw [h1]; exact hax
          · exfalso
            have hfa : f a ≤ f b := le_of_not_lt h
            rw [hfb] at hfa
            exact lt_irrefl _ (lt_of_lt_of_le h2 hfa)
        · exact ih a hp2 b (List.mem_cons_of_mem _ hb2) hfb

/-! ### `nearest_nm` and table lemmas -/

theorem tableKeys_R :
    tableKeys R_TABLE = [400, 410, 420, 430, 440, 450, 455, 460, 470, 480, 490, 500] := rfl

theorem tableKeys_B_eq_R : tableKeys B_TABLE = tableKeys R_TABLE := rfl

theorem nearest_nm_eq (nm : ℝ) :
    nearest_nm nm =
      minBy (fun j : ℕ => |(j : ℝ) - nm|) 400
        [410, 420, 430, 440, 450, 455, 460, 470, 480, 490, 500] := rfl

theorem nearest_nm_mem (nm : ℝ) : nearest_nm nm ∈ tableKeys R_TABLE := by
  rw [nearest_nm_eq, tableKeys_R]
  exact minBy_mem _ _ _

theorem nearest_nm_min (nm : ℝ) :
    ∀ k ∈ tableKeys R_TABLE, |(nearest_nm nm : ℝ) - nm| ≤ |(k : ℝ) - nm| := by
  intro k hk
  rw [tableKeys_R] at hk
  rw [nearest_nm_eq]
  exact minBy_le (fun j : ℕ => |(j : ℝ) - nm|) _ 400 k hk

theorem nearest_nm_tie (nm : ℝ) :
    ∀ k ∈ tableKeys R_TABLE,
      |(k : ℝ) - nm| = |(nearest_nm nm : ℝ) - nm| → nearest_nm nm ≤ k := by
  intro k hk he
  rw [tableKeys_R] at hk
  rw [nearest_nm_eq] at he ⊢
  exact minBy_first_tie (fun j : ℕ => |(j : ℝ) - nm|) _ 400 (by decide) k hk he

/-- On any tabulated wavelength, `nearest_nm` is the identity. -/
theorem nearest_nm_self (k : ℕ) (hk : k ∈ tableKeys R_TABLE) : nearest_nm (k : ℝ) = k := by
  have h := nearest_nm_min (k : ℝ) k hk
  have h0 : |(k : ℝ) - (k : ℝ)| = 0 := by simp
  rw [h0] at h
  have h1 : |((nearest_nm (k : ℝ) : ℕ) : ℝ) - (k : ℝ)| = 0 :=
    le_antisymm h (abs_nonneg _)
  have h2 : ((nearest_nm (k : ℝ) : ℕ) : ℝ) = (k : ℝ) := by
    have := abs_eq_zero.mp h1
    linarith [this]
  exact_mod_cast h2

theorem lookup_R_of_mem : ∀ k ∈ tableKeys R_TABLE, lookup R_TABLE k = some 2 := by
  intro k hk
  rw [tableKeys_R] at hk
  fin_cases hk <;> exact (by norm_num : some (2.0 : ℚ) = some 2)

theorem lookup_B_of_mem : ∀ k ∈ tableKeys R_TABLE, ∃ b, lookup B_TABLE k = some b ∧ 0 < b := by
  intro k hk
  rw [tableKeys_R] at hk
  fin_cases hk <;> exact ⟨_, rfl, by norm_num⟩

/-! ### Evaluator lemmas -/

theorem substituteR_of_two (p t : ℝ) : substituteR p t 2 = if t > 10.0 then 1.0 else 2 := by
  rw [substituteR]
  have h1 : ¬ (p < 1e-11 ∧ (2 : ℝ) < 1.0) := by
    rintro ⟨-, h⟩; norm_num at h
  rw [if_neg h1]
  by_cases ht : t > 10.0
  · rw [if_pos ⟨ht, by norm_num⟩, if_pos ht]
  · rw [if_neg (fun hc => ht hc.1), if_neg ht]

theorem substituteR_two_pos (p t : ℝ) : 0 < substituteR p t 2 := by
  rw [substituteR_of_two]
  split <;> norm_num

theorem marginOf_ne_zero (limit x : ℝ) (hl : 0 < limit) : marginOf limit x ≠ 0 := by
  rw [marginOf]
  split
  · next h => exact EReal.coe_ne_zero.mpr (div_pos hl h).ne'
  · exact EReal.top_ne_zero

theorem marginOf_of_not_pos (limit x : ℝ) (hx : ¬ x > 0) : marginOf limit x = ⊤ := by
  rw [marginOf, if_neg hx]

theorem governingOf_of_le (t : ℝ) (tm pm : Option EReal) (ht : t ≤ 6.2e-4) :
    governingOf t tm pm = "Thermal only (photochemical not applicable)" := by
  rw [governingOf.eq_def, if_pos ht]

theorem governingOf_of_gt (t : ℝ) (tm pm : EReal) (ht : t > 6.2e-4)
    (htm : tm ≠ 0) (hpm : pm ≠ 0) :
    governingOf t (some tm) (some pm) = if pm < tm then "Photochemical" else "Thermal" := by
  rw [governingOf.eq_def, if_neg (not_le.mpr ht)]
  exact if_pos ⟨htm, hpm⟩

/-- Master expansion of `iso15004_smallspot` when `rep_rate_Hz ≠ 0`: the
`R_TABLE` value is always `2`, the `B_TABLE` lookup succeeds with a positive
weight, and the call returns the fully spelled-out record. -/
theorem iso_eq (w P t rep p : ℝ) (hrep : rep ≠ 0) :
    ∃ B0 : ℚ, lookup B_TABLE (nearest_nm w) = some B0 ∧ 0 < B0 ∧
      iso15004_smallspot w P t rep p = .ok
        { nm := nearest_nm w
          R := substituteR p t 2
          B := (B0 : ℝ)
          E_pulse := P / rep
          E_pulse_eff := substituteR p t 2 * (P / rep)
          single_margin := marginOf 40e-9 (substituteR p t 2 * (P / rep))
          E_eff := substituteR p t 2 * P * t
          thermal_limit := if t > 6.2e-4 then some (1.7 * t ^ (0.75 : ℝ) * 1e-3) else none
          thermal_margin :=
            if t > 6.2e-4 then
              some (marginOf (1.7 * t ^ (0.75 : ℝ) * 1e-3) (substituteR p t 2 * P * t))
            else none
          E_photo := P * (B0 : ℝ) / A_cm2
          H_photo := if t > 6.2e-4 then some (P * (B0 : ℝ) / A_cm2 * t) else none
          photo_margin :=
            if t > 6.2e-4 then some (marginOf 2.2 (P * (B0 : ℝ) / A_cm2 * t)) else none
          governing :=
            governingOf t
              (if t > 6.2e-4 then
                some (marginOf (1.7 * t ^ (0.75 : ℝ) * 1e-3) (substituteR p t 2 * P * t))
              else none)
              (if t > 6.2e-4 then some (marginOf 2.2 (P * (B0 : ℝ) / A_cm2 * t)) else none)
          t_safe_photo := marginOf 2.2 (P * (B0 : ℝ) / A_cm2) } := by
  have hmem := nearest_nm_mem w
  have hR := lookup_R_of_mem _ hmem
  obtain ⟨B0, hB, hB0⟩ := lookup_B_of_mem _ hmem
  refine ⟨B0, hB, hB0, ?_⟩
  simp only [iso15004_smallspot, hR, hB]
  rw [if_neg hrep]
  norm_num

theorem digitsToNat_nil : digitsToNat [] = 0 := rfl

theorem scaleOf_u : scaleOf (some 'u') = 1e-6 := rfl

theorem scaleOf_m : scaleOf (some 'm') = 1e-3 := rfl

theorem scaleOf_none : scaleOf none = 1 := rfl

theorem floatToken_eq_none_iff (cs : List Char) :
    floatToken cs = none ↔ (cs.any Char.isDigit = false ∨ 1 < cs.count '.') := by
  rw [floatToken]
  split
  · next h =>
    constructor
    · intro hc; exact absurd hc (Option.some_ne_none _)
    · rintro (hc | hc)
      · rw [h.1] at hc; cases hc
      · exact absurd hc (not_lt.mpr h.2)
  · next h =>
    constructor
    · intro _
      rcases Bool.eq_false_or_eq_true (cs.any Char.isDigit) with hb | hb
      · right
        by_contra hcount
        exact h ⟨hb, not_lt.mp hcount⟩
      · exact Or.inl hb
    · intro _; rfl

/-! ### Claim theorems -/

/-- C3 counterexample: the spec's key grid is wrong.  The table has 12
keys, but they are not `400,410,...,500` in 10 nm steps: `455` is a key
(and a 10 nm grid from 400 to 500 would have 11 points, not 12). -/
theorem grid_not_ten_nm_steps :
    (tableKeys R_TABLE).length = 12 ∧ 455 ∈ tableKeys R_TABLE ∧
      tableKeys R_TABLE ≠ [400, 410, 420, 430, 440, 450, 460, 470, 480, 490, 500] :=
  ⟨rfl, by decide, by decide⟩

/-- C3 (amended): the table has the 12 keys `400,410,420,430,440,450,455,
460,470,480,490,500`; for any real wavelength, `nearest_nm` returns a key of
the table minimizing the absolute distance to the input, ties broken in
favor of the lowest key; it always succeeds. -/
theorem resolve_nearest_tie_lowest (nm : ℝ) :
    nearest_nm nm ∈ tableKeys R_TABLE ∧
    (∀ k ∈ tableKeys R_TABLE, |(nearest_nm nm : ℝ) - nm| ≤ |(k : ℝ) - nm|) ∧
    (∀ k ∈ tableKeys R_TABLE, |(k : ℝ) - nm| = |(nearest_nm nm : ℝ) - nm| → nearest_nm nm ≤ k) :=
  ⟨nearest_nm_mem nm, nearest_nm_min nm, nearest_nm_tie nm⟩

/-- Witness for C3's theorem at the concrete wavelength 405 and grid key 400. -/
theorem resolve_nearest_tie_lowest_witness :
    nearest_nm 405 ∈ tableKeys R_TABLE ∧
      |(nearest_nm 405 : ℝ) - 405| ≤ |((400 : ℕ) : ℝ) - 405| :=
  ⟨(resolve_nearest_tie_lowest 405).1,
   (resolve_nearest_tie_lowest 405).2.1 400 (by decide)⟩

/-- C5 counterexample: the claim says `M` scales by `1e6` (mega); the code
lowercases the input first, so `"5M"` is scaled by `1e-3` (milli) instead:
`parse_value "5M" = 5e-3 ≠ 5e6`. -/
theorem parse_value_mega_is_milli :
    parse_value "5M" = some 5e-3 ∧ (5e-3 : ℚ) ≠ 5e6 := by
  constructor
  · rw [parse_value_eval "5M" ['5', 'm'] ['5'] ['5'] [] (some 'm')
        (by decide) (by decide) (by decide) (by decide) (by decide) (by decide) (by decide),
      show digitsToNat ['5'] = 5 from by decide, digitsToNat_nil, scaleOf_m]
    norm_num
  · norm_num

/-- C5 (amended): `parse_value` scales a number by `T=1e12`, `G=1e9`,
`k=1e3`, `m=1e-3`, `u=1e-6`, `n=1e-9`, `p=1e-12`, `f=1e-15`, and `1.0`
with no suffix, case-insensitively and ignoring whitespace; upper-case `M`
is lowercased and scales as milli (`1e-3`), not mega.  In particular the
spec's example round-trips hold. -/
theorem parse_value_scales :
    parse_value "5u" = some 5e-6 ∧ parse_value "10m" = some 1e-2 ∧
    parse_value "6p" = some 6e-12 ∧ parse_value "2n" = some 2e-9 ∧
    parse_value "100" = some 100 ∧
    parse_value "1T" = some 1e12 ∧ parse_value "1G" = some 1e9 ∧
    parse_value "1k" = some 1e3 ∧ parse_value "1f" = some 1e-15 ∧
    parse_value "5U" = some 5e-6 ∧ parse_value " 5 u " = some 5e-6 ∧
    parse_value "5M" = some 5e-3 := by
  refine ⟨?_, ?_, ?_, ?_, ?_, ?_, ?_, ?_, ?_, ?_, ?_, ?_⟩
  · rw [parse_value_eval "5u" ['5', 'u'] ['5'] ['5'] [] (some 'u')
        (by decide) (by decide) (by decide) (by decide) (by decide) (by decide) (by decide),
      show digitsToNat ['5'] = 5 from by decide, digitsToNat_nil, scaleOf_u]
    norm_num
  · rw [parse_value_eval "10m" ['1', '0', 'm'] ['1', '0'] ['1', '0'] [] (some 'm')
        (by decide) (by decide) (by decide) (by decide) (by decide) (by decide) (by decide),
      show digitsToNat ['1', '0'] = 10 from by decide, digitsToNat_nil, scaleOf_m]
    norm_num
  · rw [parse_value_eval "6p" ['6', 'p'] ['6'] ['6'] [] (some 'p')
        (by decide) (by decide) (by decide) (by decide) (by decide) (by decide) (by decide),
      show digitsToNat ['6'] = 6 from by decide, digitsToNat_nil,
      show scaleOf (some 'p') = 1e-12 from rfl]
    norm_num
  · rw [parse_value_eval "2n" ['2', 'n'] ['2'] ['2'] [] (some 'n')
        (by decide) (by decide) (by decide) (by decide) (by decide) (by decide) (by decide),
      show digitsToNat ['2'] = 2 from by decide, digitsToNat_nil,
      show scaleOf (some 'n') = 1e-9 from rfl]
    norm_num
  · rw [parse_value_eval "100" ['1', '0', '0'] ['1', '0', '0'] ['1', '0', '0'] [] none
        (by decide) (by decide) (by decide) (by decide) (by decide) (by decide) (by decide),
      show digitsToNat ['1', '0', '0'] = 100 from by decide, digitsToNat_nil, scaleOf_none]
    norm_num
  · rw [parse_value_eval "1T" ['1', 't'] ['1'] ['1'] [] (some 't')
        (by decide) (by decide) (by decide) (by decide) (by decide) (by decide) (by decide),
      show digitsToNat ['1'] = 1 from by decide, digitsToNat_nil,
      show scaleOf (some 't') = 1e12 from rfl]
    norm_num
  · rw [parse_value_eval "1G" ['1', 'g'] ['1'] ['1'] [] (some 'g')
        (by decide) (by decide) (by decide) (by decide) (by decide) (by decide) (by decide),
      show digitsToNat ['1'] = 1 from by decide, digitsToNat_nil,
      show scaleOf (some 'g') = 1e9 from rfl]
    norm_num
  · rw [parse_value_eval "1k" ['1', 'k'] ['1'] ['1'] [] (some 'k')
        (by decide) (by decide) (by decide) (by decide) (by decide) (by decide) (by decide),
      show digitsToNat ['1'] = 1 from by decide, digitsToNat_nil,
      show scaleOf (some 'k') = 1e3 from rfl]
    norm_num
  · rw [parse_value_eval "1f" ['1', 'f'] ['1'] ['1'] [] (some 'f')
        (by decide) (by decide) (by decide) (by decide) (by decide) (by decide) (by decide),
      show digitsToNat ['1'] = 1 from by decide, digitsToNat_nil,
      show scaleOf (some 'f') = 1e-15 from rfl]
    norm_num
  · rw [parse_value_eval "5U" ['5', 'u'] ['5'] ['5'] [] (some 'u')
        (by decide) (by decide) (by decide) (by decide) (by decide) (by decide) (by decide),
      show digitsToNat ['5'] = 5 from by decide, digitsToNat_nil, scaleOf_u]
    norm_num
  · rw [parse_value_eval " 5 u " ['5', ' ', 'u'] ['5'] ['5'] [] (some 'u')
        (by decide) (by decide) (by decide) (by decide) (by decide) (by decide) (by decide),
      show digitsToNat ['5'] = 5 from by decide, digitsToNat_nil, scaleOf_u]
    norm_num
  · rw [parse_value_eval "5M" ['5', 'm'] ['5'] ['5'] [] (some 'm')
        (by decide) (by decide) (by decide) (by decide) (by decide) (by decide) (by decide),
      show digitsToNat ['5'] = 5 from by decide, digitsToNat_nil, scaleOf_m]
    norm_num

/-- C6 counterexample: the claim says every string not of the whole-string
shape `<number><optional prefix letter>` is rejected; but the regex is
unanchored, so `"100xyz"` — not of that shape — parses to `100.0`. -/
theorem trailing_input_partially_parsed :
    matchesShapeSpec "100xyz" = false ∧ parse_value "100xyz" = some 100 := by
  refine ⟨by decide, ?_⟩
  rw [parse_value_eval "100xyz" ['1', '0', '0', 'x', 'y', 'z'] ['1', '0', '0'] ['1', '0', '0']
      [] none
      (by decide) (by decide) (by decide) (by decide) (by decide) (by decide) (by decide),
    show digitsToNat ['1', '0', '0'] = 100 from by decide, digitsToNat_nil, scaleOf_none]
  norm_num

/-- C6 (amended): `parse_value` fails exactly when the leading `[0-9.]` run
of the normalized input is not a valid number — it is empty, has no digit,
or has more than one dot; trailing characters after the number and optional
prefix letter are ignored, not rejected. -/
theorem parse_value_failure_iff :
    (∀ s : String,
      parse_value s = none ↔
        ((((pyStrip s.data).map normChar).takeWhile isNumChar).any Char.isDigit = false ∨
          1 < (((pyStrip s.data).map normChar).takeWhile isNumChar).count '.')) ∧
    parse_value "" = none ∧ parse_value "abc" = none ∧
    parse_value "." = none ∧ parse_value "1.2.3" = none := by
  refine ⟨?_, by decide, by decide, by decide, by decide⟩
  intro s
  rw [← floatToken_eq_none_iff]
  simp only [parse_value]
  cases hft : floatToken (((pyStrip s.data).map normChar).takeWhile isNumChar) with
  | none => simp [hft]
  | some q => simp [hft]

/-- C1: with `dwell_time_s > 6.2e-4` (and a nonzero repetition rate, which
any evaluation needs to return at all), both margins are present — so the
claim's one-margin and no-margin cases are vacuous — and the governing
hazard is "Photochemical" when `photo_margin < thermal_margin`, else
"Thermal". -/
theorem governing_is_margin_comparison (w P t rep p : ℝ) (hrep : rep ≠ 0)
    (ht : t > 6.2e-4) :
    ∃ (r : HazardResult) (tm pm : EReal),
      iso15004_smallspot w P t rep p = .ok r ∧
      r.thermal_margin = some tm ∧ r.photo_margin = some pm ∧
      r.governing = (if pm < tm then "Photochemical" else "Thermal") := by
  obtain ⟨B0, hB, hB0, heq⟩ := iso_eq w P t rep p hrep
  have htpos : (0 : ℝ) < t := lt_trans (by norm_num) ht
  have htl : (0 : ℝ) < 1.7 * t ^ (0.75 : ℝ) * 1e-3 := by
    have hpow := Real.rpow_pos_of_pos htpos (0.75 : ℝ)
    have h17 : (0 : ℝ) < 1.7 * t ^ (0.75 : ℝ) := by positivity
    positivity
  have htm := marginOf_ne_zero (1.7 * t ^ (0.75 : ℝ) * 1e-3)
    (substituteR p t 2 * P * t) htl
  have hpm := marginOf_ne_zero 2.2 (P * (B0 : ℝ) / A_cm2 * t) (by norm_num)
  refine ⟨_, marginOf (1.7 * t ^ (0.75 : ℝ) * 1e-3) (substituteR p t 2 * P * t),
    marginOf 2.2 (P * (B0 : ℝ) / A_cm2 * t), heq, ?_, ?_, ?_⟩
  · dsimp only
    rw [if_pos ht]
  · dsimp only
    rw [if_pos ht]
  · dsimp only
    rw [if_pos ht, if_pos ht, governingOf_of_gt t _ _ ht htm hpm]

/-- Witness for C1's theorem at wavelength 430, power 5e-6 W, dwell 0.1 s. -/
theorem governing_is_margin_comparison_witness :
    ∃ (r : HazardResult) (tm pm : EReal),
      iso15004_smallspot 430 5e-6 0.1 59e6 6e-12 = .ok r ∧
      r.thermal_margin = some tm ∧ r.photo_margin = some pm ∧
      r.governing = (if pm < tm then "Photochemical" else "Thermal") :=
  governing_is_margin_comparison 430 5e-6 0.1 59e6 6e-12 (by norm_num) (by norm_num)

/-- C2: with `dwell_time_s ≤ 6.2e-4` (and a nonzero repetition rate), the
result has no thermal fields and no photochemical fields — they are `none`,
not zero — and the governing hazard is exactly
"Thermal only (photochemical not applicable)". -/
theorem short_dwell_no_thermal_photo_fields (w P t rep p : ℝ) (hrep : rep ≠ 0)
    (ht : t ≤ 6.2e-4) :
    ∃ r : HazardResult, iso15004_smallspot w P t rep p = .ok r ∧
      r.thermal_limit = none ∧ r.thermal_margin = none ∧
      r.H_photo = none ∧ r.photo_margin = none ∧
      r.governing = "Thermal only (photochemical not applicable)" := by
  obtain ⟨B0, hB, hB0, heq⟩ := iso_eq w P t rep p hrep
  have hnot : ¬ t > 6.2e-4 := not_lt.mpr ht
  refine ⟨_, heq, ?_, ?_, ?_, ?_, ?_⟩
  · dsimp only
    rw [if_neg hnot]
  · dsimp only
    rw [if_neg hnot]
  · dsimp only
    rw [if_neg hnot]
  · dsimp only
    rw [if_neg hnot]
  · dsimp only
    exact governingOf_of_le t _ _ ht

/-- Witness for C2's theorem at wavelength 400, power 1e-3 W, dwell 1e-5 s. -/
theorem short_dwell_no_thermal_photo_fields_witness :
    ∃ r : HazardResult, iso15004_smallspot 400 1e-3 1e-5 59e6 6e-12 = .ok r ∧
      r.thermal_limit = none ∧ r.thermal_margin = none ∧
      r.H_photo = none ∧ r.photo_margin = none ∧
      r.governing = "Thermal only (photochemical not applicable)" :=
  short_dwell_no_thermal_photo_fields 400 1e-3 1e-5 59e6 6e-12 (by norm_num) (by norm_num)

/-- C7: the substitution rules act in order and independently on `R`:
the first rule never modifies an `R ≥ 1`; a sub-`1e-11` pulse with `R < 1`
forces `R = 1`; and `dwell_time_s = 20.0` forces `R = 1` (base table `R` is
2.0), observable in `E_pulse_eff = P / rep`. -/
theorem substitution_rules :
    (∀ p t R : ℝ, 1 ≤ R → substituteR p t R = if t > 10.0 ∧ R > 1.0 then 1.0 else R) ∧
    (∀ p t R : ℝ, p < 1e-11 → R < 1.0 → substituteR p t R = 1.0) ∧
    (∀ w P rep p : ℝ, rep ≠ 0 →
      ∃ r : HazardResult, iso15004_smallspot w P 20.0 rep p = .ok r ∧
        r.R = 1.0 ∧ r.E_pulse_eff = P / rep) := by
  refine ⟨?_, ?_, ?_⟩
  · intro p t R hR
    rw [substituteR]
    have h10 : (1.0 : ℝ) ≤ R := by
      rw [show (1.0 : ℝ) = 1 from by norm_num]; exact hR
    have h1 : ¬ (p < 1e-11 ∧ R < 1.0) := fun hc => absurd hc.2 (not_lt.mpr h10)
    rw [if_neg h1]
  · intro p t R hp hR
    rw [substituteR]
    rw [if_pos (⟨hp, hR⟩ : p < 1e-11 ∧ R < 1.0)]
    exact if_neg (fun hc => lt_irrefl _ hc.2)
  · intro w P rep p hrep
    obtain ⟨B0, hB, hB0, heq⟩ := iso_eq w P 20.0 rep p hrep
    refine ⟨_, heq, ?_, ?_⟩
    · dsimp only
      rw [substituteR_of_two, if_pos (by norm_num)]
    · dsimp only
      rw [substituteR_of_two, if_pos (by norm_num),
        show (1.0 : ℝ) = 1 from by norm_num, one_mul]

/-- Witness for C7's theorem: rule one applied at `R = 2`, rule two at
`R = 0.5`, and the long-stare override observed in a full evaluation. -/
theorem substitution_rules_witness :
    substituteR 6e-12 20.0 2 = (if (20.0 : ℝ) > 10.0 ∧ (2 : ℝ) > 1.0 then 1.0 else 2) ∧
    substituteR 1e-12 0.1 0.5 = 1.0 ∧
    ∃ r : HazardResult, iso15004_smallspot 430 5e-6 20.0 59e6 6e-12 = .ok r ∧
      r.R = 1.0 ∧ r.E_pulse_eff = 5e-6 / 59e6 :=
  ⟨substitution_rules.1 6e-12 20.0 2 (by norm_num),
   substitution_rules.2.1 1e-12 0.1 0.5 (by norm_num) (by norm_num),
   substitution_rules.2.2 430 5e-6 59e6 6e-12 (by norm_num)⟩

/-- C4 counterexample: the input invariant only requires `rep_rate_Hz` to be
non-negative, and the division `E_pulse = power_pupil_W / rep_rate_Hz` is
not guarded — at `rep_rate_Hz = 0` the evaluation raises
`ZeroDivisionError` instead of returning a result. -/
theorem zero_rep_rate_division_error :
    iso15004_smallspot 430 1.0 1.0 0 6e-12 = .error PyError.zeroDivisionError := by
  have h430 : nearest_nm (430 : ℝ) = 430 := by
    have h := nearest_nm_self 430 (by decide)
    rwa [show (((430 : ℕ) : ℝ)) = (430 : ℝ) from by norm_num] at h
  have hR : lookup R_TABLE 430 = some 2 := lookup_R_of_mem 430 (by decide)
  obtain ⟨B0, hB, -⟩ := lookup_B_of_mem 430 (by decide)
  simp only [iso15004_smallspot, h430, hR, hB]
  rw [if_pos trivial]

/-- C4 (amended): for every input with `rep_rate_Hz ≠ 0`, the evaluation
returns a result — every division whose denominator is a computed quantity
(single-pulse, thermal, photochemical margins, safe stopped-beam time) is
guarded, yielding the infinite-margin sentinel `⊤` — and `power_pupil_W = 0`
makes every margin infinite; but the unguarded `power / rep_rate` division
fails at `rep_rate_Hz = 0`. -/
theorem no_error_and_zero_power_margins (w P t rep p : ℝ) (hrep : rep ≠ 0) :
    (∃ r : HazardResult, iso15004_smallspot w P t rep p = .ok r) ∧
    ∀ r : HazardResult, iso15004_smallspot w 0 t rep p = .ok r →
      r.single_margin = ⊤ ∧ r.t_safe_photo = ⊤ ∧
      (∀ m, r.thermal_margin = some m → m = ⊤) ∧
      (∀ m, r.photo_margin = some m → m = ⊤) := by
  obtain ⟨B0, hB, hB0, heq⟩ := iso_eq w P t rep p hrep
  obtain ⟨B0z, hBz, hB0z, heqz⟩ := iso_eq w 0 t rep p hrep
  refine ⟨⟨_, heq⟩, ?_⟩
  intro r hr
  rw [heqz] at hr
  injection hr with hr
  subst hr
  refine ⟨?_, ?_, ?_, ?_⟩
  · dsimp only
    rw [zero_div, mul_zero]
    exact marginOf_of_not_pos _ _ (by norm_num)
  · dsimp only
    rw [zero_mul, zero_div]
    exact marginOf_of_not_pos _ _ (by norm_num)
  · dsimp only
    intro m hm
    by_cases hgt : t > 6.2e-4
    · rw [if_pos hgt] at hm
      injection hm with hm
      rw [← hm, mul_zero, zero_mul]
      exact marginOf_of_not_pos _ _ (by norm_num)
    · rw [if_neg hgt] at hm
      cases hm
  · dsimp only
    intro m hm
    by_cases hgt : t > 6.2e-4
    · rw [if_pos hgt] at hm
      injection hm with hm
      rw [← hm, zero_mul, zero_div, zero_mul]
      exact marginOf_of_not_pos _ _ (by norm_num)
    · rw [if_neg hgt] at hm
      cases hm

/-- Witness for C4's amended theorem at wavelength 430, dwell 0.1 s. -/
theorem no_error_and_zero_power_margins_witness :
    (∃ r : HazardResult, iso15004_smallspot 430 5e-6 0.1 59e6 6e-12 = .ok r) ∧
    ∀ r : HazardResult, iso15004_smallspot 430 0 0.1 59e6 6e-12 = .ok r →
      r.single_margin = ⊤ ∧ r.t_safe_photo = ⊤ ∧
      (∀ m, r.thermal_margin = some m → m = ⊤) ∧
      (∀ m, r.photo_margin = some m → m = ⊤) :=
  no_error_and_zero_power_margins 430 5e-6 0.1 59e6 6e-12 (by norm_num)

/-- C8 (supporting theorem for the computational content of the claim): the
safe stopped-beam time is `marginOf photo_limit E_photo`, i.e.
`photo_limit / E_photo` with the infinite sentinel when `E_photo` is not
positive, and it is computed independently of the `dwell_time_s > 6.2e-4`
gate: evaluations at any two dwell times agree on it. -/
theorem t_safe_photo_formula_gate_independent (w P t t' rep p : ℝ) (hrep : rep ≠ 0) :
    ∃ r r' : HazardResult,
      iso15004_smallspot w P t rep p = .ok r ∧
      iso15004_smallspot w P t' rep p = .ok r' ∧
      r.t_safe_photo = r'.t_safe_photo ∧
      r.t_safe_photo = marginOf 2.2 r.E_photo := by
  obtain ⟨B0, hB, hB0, heq⟩ := iso_eq w P t rep p hrep
  obtain ⟨B0', hB', hB0', heq'⟩ := iso_eq w P t' rep p hrep
  have hBB : B0' = B0 := by
    rw [hB] at hB'
    exact (Option.some.inj hB').symm
  subst hBB
  exact ⟨_, _, heq, heq', rfl, rfl⟩

/-- Witness for C8's theorem across the gate: dwell 1e-5 s (gate closed)
versus 0.1 s (gate open). -/
theorem t_safe_photo_formula_gate_independent_witness :
    ∃ r r' : HazardResult,
      iso15004_smallspot 430 5e-6 1e-5 59e6 6e-12 = .ok r ∧
      iso15004_smallspot 430 5e-6 0.1 59e6 6e-12 = .ok r' ∧
      r.t_safe_photo = r'.t_safe_photo ∧
      r.t_safe_photo = marginOf 2.2 r.E_photo :=
  t_safe_photo_formula_gate_independent 430 5e-6 1e-5 0.1 59e6 6e-12 (by norm_num)

/-- C9: every tabulated `R` value is 2, so the ultrashort-pulse rule — the
only consumer of `pulse_duration_s` — never fires, and two evaluations
differing only in `pulse_duration_s` produce identical results. -/
theorem result_independent_of_pulse_duration (w P t rep p1 p2 : ℝ) :
    iso15004_smallspot w P t rep p1 = iso15004_smallspot w P t rep p2 := by
  have hR := lookup_R_of_mem _ (nearest_nm_mem w)
  obtain ⟨B0, hB, -⟩ := lookup_B_of_mem _ (nearest_nm_mem w)
  simp only [iso15004_smallspot, hR, hB]
  rw [show ((2 : ℚ) : ℝ) = 2 from by norm_num]
  rw [substituteR_of_two p1 t, substituteR_of_two p2 t]

/-- C10: the two tables have exactly the same key set, `nearest_nm` always
returns a member of it, and therefore both dictionary lookups in the
evaluator succeed for every wavelength — no `KeyError` is reachable. -/
theorem table_lookups_total :
    tableKeys R_TABLE = tableKeys B_TABLE ∧
    ∀ nm : ℝ, nearest_nm nm ∈ tableKeys R_TABLE ∧
      (lookup R_TABLE (nearest_nm nm)).isSome = true ∧
      (lookup B_TABLE (nearest_nm nm)).isSome = true := by
  refine ⟨tableKeys_B_eq_R.symm, ?_⟩
  intro nm
  have hmem := nearest_nm_mem nm
  refine ⟨hmem, ?_, ?_⟩
  · rw [lookup_R_of_mem _ hmem]
    rfl
  · obtain ⟨b, hb, -⟩ := lookup_B_of_mem _ hmem
    rw [hb]
    rfl

end ISO15004
